import Mathlib

/-!
Verification of the standalone lead email finder pipeline
(`standalone_lead_email_finder.py`).

Python strings are modelled as `List Char` (`Str`); the pipeline's pure
logic (URL sanitization, query planning, search-page aggregation, email
extraction and filtering, result assembly) is embedded as executable
functions. Network activity is abstracted by an oracle
`netFetch : Str → Nat → PageOutcome` giving the outcome of fetching one
result page for one query.
-/

/-- Python strings are modelled as lists of characters. -/
abbrev Str := List Char

/-- Converts a Lean string literal to the `Str` model. -/
def strL (s : String) : Str := s.data

/-- Models ASCII lowercasing of one character, as Python's `str.lower`
does on the ASCII range: `A`..`Z` (codes 65-90) shift by 32, everything
else is unchanged. -/
def lowerChar (c : Char) : Char :=
  if 65 ≤ c.toNat ∧ c.toNat ≤ 90 then Char.ofNat (c.toNat + 32) else c

/-- Models Python `str.lower()`. -/
def toLowerS (s : Str) : Str := s.map lowerChar

/-- Models Python `str.startswith(pat)`. -/
def startsWithS (pat s : Str) : Bool := List.isPrefixOf pat s

/-- Fuel-driven scan for `hasSub`. -/
def hasSubAux (pat : Str) : Nat → Str → Bool
  | 0, s => List.isPrefixOf pat s
  | fuel + 1, s =>
    List.isPrefixOf pat s ||
      match s with
      | [] => false
      | _ :: cs => hasSubAux pat fuel cs

/-- Models Python's `pat in s` substring test. -/
def hasSub (pat s : Str) : Bool := hasSubAux pat s.length s

/-- Lexicographic comparison of strings by character code, as Python's
`<=` on `str` behaves (a proper prefix is smaller). -/
def strLe : Str → Str → Bool
  | [], _ => true
  | _ :: _, [] => false
  | a :: as, b :: bs => if a < b then true else if b < a then false else strLe as bs

/-- Propositional form of `strLe`, used as the sorting relation. -/
def strLeP (a b : Str) : Prop := strLe a b = true

instance : DecidableRel strLeP := fun a b => instDecidableEqBool _ _

/-- Models Python `str.split(sep)` for a single-character separator:
every occurrence splits, empty pieces are kept, and the result is never
the empty list. -/
def pySplit (sep : Char) : Str → List Str
  | [] => [[]]
  | c :: cs =>
    if c = sep then [] :: pySplit sep cs
    else
      match pySplit sep cs with
      | [] => [[c]]
      | t :: ts => (c :: t) :: ts

/-- Accumulating worker for `splitWS`; `cur` holds the current token
reversed. -/
def splitWSAux : Str → Str → List Str
  | [], cur => if cur.isEmpty then [] else [cur.reverse]
  | c :: cs, cur =>
    if c.isWhitespace then
      if cur.isEmpty then splitWSAux cs [] else cur.reverse :: splitWSAux cs []
    else splitWSAux cs (c :: cur)

/-- Models Python `str.split()` with no argument: split on runs of
whitespace, discarding empty tokens. -/
def splitWS (s : Str) : List Str := splitWSAux s []

/-- Models `re.sub(r':\d+$', '', domain)`: removes one trailing group of
a colon followed by at least one digit. -/
def stripPort (s : Str) : Str :=
  let r := s.reverse
  let digits := r.takeWhile Char.isDigit
  match r.drop digits.length with
  | ':' :: rest2 => if digits.isEmpty then s else rest2.reverse
  | _ => s

/-- Models `urlparse(url).netloc` for a URL that starts with `http://`,
`https://` or `//` (the sanitizer guarantees one of these prefixes): the
authority is everything after the leading `//` up to the first `/`, `?`
or `#`. -/
def netlocOf (url1 : Str) : Str :=
  let after :=
    if startsWithS (strL "https://") url1 then url1.drop 8
    else if startsWithS (strL "http://") url1 then url1.drop 7
    else if startsWithS (strL "//") url1 then url1.drop 2
    else []
  after.takeWhile (fun c => ¬ (c = '/' ∨ c = '?' ∨ c = '#'))

/-- The part of `sanitize_url` that runs on the extracted authority:
reject empty, strip one leading `www.` (detected case-insensitively),
strip a trailing `:port`, require a `.` and a final label of length at
least 2, and return the lowercased result. -/
def sanitizeCore (domain0 : Str) : Option Str :=
  if domain0.isEmpty then none
  else
    let domain1 := if startsWithS (strL "www.") (toLowerS domain0) then domain0.drop 4 else domain0
    let domain2 := stripPort domain1
    if ¬ ('.' ∈ domain2) ∨ ((pySplit '.' domain2).getLastD []).length < 2 then none
    else some (toLowerS domain2)

/-- Models `sanitize_url`: empty/whitespace input is rejected, a scheme
is prepended when missing, and the authority is cleaned by
`sanitizeCore`. -/
def sanitize_url (url : Str) : Option Str :=
  if url.all Char.isWhitespace then none
  else
    let url1 :=
      if startsWithS (strL "http://") url ∨ startsWithS (strL "https://") url ∨
          startsWithS (strL "//") url then url
      else strL "https://" ++ url
    sanitizeCore (netlocOf url1)

/-- The static blacklist `BLACKLISTED_DOMAINS`, transcribed in source
order (the Python literal lists `mail.com` twice; as a set this is
harmless). -/
def BLACKLISTED_DOMAINS : List Str :=
  [strL "email-format.com", strL "rocketreach.co", strL "hunter.io", strL "clearbit.com",
   strL "apollo.io", strL "emailhippo.com", strL "mailcheck.ai", strL "verify-email.org",
   strL "email-checker.net", strL "findemails.com", strL "findthat.email", strL "skymem.info",
   strL "anymail.com", strL "snov.io", strL "thatsthem.com", strL "emailfinder.io",
   strL "aol.com", strL "gmail.com", strL "googlemail.com", strL "hotmail.com",
   strL "msn.com", strL "live.com", strL "yahoo.com", strL "outlook.com",
   strL "gmx.com", strL "mail.com", strL "example.com", strL "wix.com",
   strL "squarespace.com", strL "godaddy.com", strL "protobuf.com", strL "zoho.com",
   strL "yandex.com", strL "protonmail.com", strL "github.com", strL "icloud.com",
   strL "privaterelay.appleid.com", strL "linkedin.com", strL "facebook.com", strL "twitter.com",
   strL "instagram.com", strL "support.com", strL "service.com", strL "info.com",
   strL "mail.com", strL ".info", strL ".xyz", strL ".online", strL ".site", strL ".live",
   strL ".club"]

/-- The substring after the first `@`, i.e. the second component of
Python's `email.split('@', 1)`. -/
def domainPart (email : Str) : Str := (email.dropWhile (fun c => c ≠ '@')).tail

/-- Models the unpacking `_, domain_part = email.split('@', 1)`: `none`
models the `ValueError` raised when there is no `@`. -/
def splitFirstAt (email : Str) : Option (Str × Str) :=
  if '@' ∈ email then some (email.takeWhile (fun c => c ≠ '@'), domainPart email) else none

/-- One iteration of the loop body of `filter_blacklisted_emails`:
whether the candidate is appended to `valid_emails`, given the already
normalized target domain. -/
def keepEmail (ntd : Option Str) (email : Str) : Bool :=
  match splitFirstAt email with
  | none => false
  | some (_, dp) =>
    if dp ∈ BLACKLISTED_DOMAINS then false
    else
      match ntd with
      | some t => decide (dp = t)
      | none => true

/-- Models `target_domain.lower() if target_domain else None`: the
Python truthiness check turns both `None` and the empty string into
`None`. -/
def normTD : Option Str → Option Str
  | some t => if t.isEmpty then none else some (toLowerS t)
  | none => none

/-- Models `filter_blacklisted_emails`: keep the candidates that pass
the per-email checks, then `sorted(list(set(valid_emails)))`. The input
set is represented as a list. -/
def filter_blacklisted_emails (emails : List Str) (target_domain : Option Str) : List Str :=
  List.insertionSort strLeP ((emails.filter (keepEmail (normTD target_domain))).dedup)

/-- Character class `[a-zA-Z0-9._%+-]` of the email regex local part. -/
def isLocalChar (c : Char) : Bool :=
  c.isAlpha || c.isDigit || c == '.' || c == '_' || c == '%' || c == '+' || c == '-'

/-- Character class `[a-zA-Z0-9.-]` of the email regex domain part. -/
def isDomChar (c : Char) : Bool := c.isAlpha || c.isDigit || c == '.' || c == '-'

/-- Character class `[a-zA-Z]` of the email regex TLD part. -/
def isTldChar (c : Char) : Bool := c.isAlpha

/-- Backtracking search for the split point of `[a-zA-Z0-9.-]+\.[a-zA-Z]{2,}`
inside the maximal domain-character run `dom`: the greedy `+` tries the
rightmost dot position first. Returns the dot position and the length of
the following maximal letter run when that run has length at least 2. -/
def tryK (dom : Str) : Nat → Option (Nat × Nat)
  | 0 => none
  | k + 1 =>
    let t := ((dom.drop (k + 2)).takeWhile isTldChar).length
    if dom.getD (k + 1) '@' == '.' && decide (2 ≤ t) then some (k + 1, t)
    else tryK dom k

/-- Anchored match of `EMAIL_REGEX` at the start of `s`, following the
greedy/backtracking semantics of `[a-zA-Z0-9._%+-]+@[a-zA-Z0-9.-]+\.[a-zA-Z]{2,}`:
the local part is the maximal local-character run (it must be followed
by a literal `@` since backtracking inside the class cannot reach `@`),
and the domain/TLD split is found by `tryK`. Returns the matched string
and the remaining input. -/
def matchFrom (s : Str) : Option (Str × Str) :=
  let lp := s.takeWhile isLocalChar
  if lp.isEmpty then none
  else
    match s.drop lp.length with
    | '@' :: rest =>
      let dom := rest.takeWhile isDomChar
      match tryK dom dom.length with
      | some (p, t) => some (lp ++ '@' :: dom.take (p + 1 + t), rest.drop (p + 1 + t))
      | none => none
    | _ => none

/-- Scanning loop of `re.findall`: try to match at each position, and
continue after the end of every match. The fuel is the remaining length,
which suffices because every step consumes at least one character. -/
def scanAux : Nat → Str → List Str
  | 0, _ => []
  | _ + 1, [] => []
  | fuel + 1, c :: cs =>
    match matchFrom (c :: cs) with
    | some (m, rest) => m :: scanAux fuel rest
    | none => scanAux fuel cs

/-- Models `EMAIL_REGEX.findall(text)`. -/
def findallEmails (text : Str) : List Str := scanAux text.length text

/-- Models `extract_emails_from_text`: lowercase every match and build a
set (represented as a deduplicated list). -/
def extract_emails_from_text (text : Str) : List Str :=
  if text.isEmpty then [] else ((findallEmails text).map toLowerS).dedup

/-- Wraps a string in double quotes, as the f-strings of the
permutation-guess queries do. -/
def quoteS (s : Str) : Str := '"' :: (s ++ ['"'])

/-- Python truthiness of an optional string: `None` and `""` are falsy. -/
def truthy : Option Str → Bool
  | none => false
  | some s => !s.isEmpty

/-- The four mutually exclusive base template lists of
`find_emails_logic`, selected by the truthiness of `ceo_name` and
`target_domain` exactly as the `if`/`elif` chain does. -/
def baseTemplates (ceo_name : Option Str) (target_domain : Option Str) : List Str :=
  if truthy ceo_name && truthy target_domain then
    [strL "\"{name}\" \"{domain}\" email",
     strL "\"{name}\" email address {domain}",
     strL "contact \"{name}\" {domain}",
     strL "\"{domain}\" email",
     strL "contact {domain}"]
  else if truthy ceo_name then
    [strL "\"{name}\" \"{search_name}\" email",
     strL "\"{name}\" email address \"{search_name}\" company",
     strL "contact \"{name}\" \"{search_name}\"",
     strL "\"{search_name}\" email"]
  else if truthy target_domain then
    [strL "\"{domain}\" email address",
     strL "contact OR support email \"{domain}\"",
     strL "\"{domain}\" company contact",
     strL "site:{domain} email OR contact"]
  else
    [strL "\"{search_name}\" contact email",
     strL "\"{search_name}\" customer service email",
     strL "\"{search_name}\" company email address",
     strL "email address for \"{search_name}\""]

/-- The permutation-guess literal address queries appended when a CEO
name is truthy, splits into at least two whitespace tokens, and a
target domain is truthy. `fname.take 1` models the Python indexing
`fname[0]`. -/
def permGuessQueries (ceo_name : Option Str) (target_domain : Option Str) : List Str :=
  match ceo_name with
  | none => []
  | some cn =>
    if cn.isEmpty then []
    else
      let parts := splitWS (toLowerS cn)
      if 2 ≤ parts.length then
        let fname := parts.headD []
        let lname := parts.getLastD []
        match target_domain with
        | some td =>
          if td.isEmpty then []
          else
            [quoteS (fname.take 1 ++ lname ++ '@' :: td),
             quoteS (fname ++ '.' :: lname ++ '@' :: td),
             quoteS (fname ++ lname ++ '@' :: td),
             quoteS (lname ++ '.' :: fname ++ '@' :: td),
             quoteS (fname ++ '@' :: td)]
        | none => []
      else []

/-- The full query template list built by `find_emails_logic` before
substitution: base strategy plus appended permutation guesses. -/
def queryTemplates (ceo_name : Option Str) (target_domain : Option Str) : List Str :=
  baseTemplates ceo_name target_domain ++ permGuessQueries ceo_name target_domain

/-- Fuel-driven worker for `formatQuery`: substitutes the three
placeholders in one left-to-right pass; substituted values are not
rescanned, matching `str.format`. Stray braces, which CPython's
`format` would reject, are left verbatim. -/
def fmtAux (nameV domV snV : Str) : Nat → Str → Str
  | 0, s => s
  | fuel + 1, s =>
    if startsWithS (strL "{name}") s then nameV ++ fmtAux nameV domV snV fuel (s.drop 6)
    else if startsWithS (strL "{domain}") s then domV ++ fmtAux nameV domV snV fuel (s.drop 8)
    else if startsWithS (strL "{search_name}") s then snV ++ fmtAux nameV domV snV fuel (s.drop 13)
    else
      match s with
      | [] => []
      | c :: cs => c :: fmtAux nameV domV snV fuel cs

/-- Models `template.format(name=..., domain=..., search_name=...)`. -/
def formatQuery (nameV domV snV : Str) (t : Str) : Str := fmtAux nameV domV snV t.length t

/-- Fuel-driven worker for `pyReplace`. -/
def pyReplaceAux (pat rep : Str) : Nat → Str → Str
  | 0, s => s
  | fuel + 1, s =>
    if !pat.isEmpty && List.isPrefixOf pat s then rep ++ pyReplaceAux pat rep fuel (s.drop pat.length)
    else
      match s with
      | [] => []
      | c :: cs => c :: pyReplaceAux pat rep fuel cs

/-- Models `str.replace(pat, rep)`: replace all non-overlapping
occurrences left to right, not rescanning replacement text. -/
def pyReplace (pat rep s : Str) : Str := pyReplaceAux pat rep s.length s

/-- Models the query cleanup `query.replace('\x22\x22 ', '').replace(' \x22\x22', '')`. -/
def cleanupQuery (q : Str) : Str := pyReplace (strL " \"\"") [] (pyReplace (strL "\"\" ") [] q)

/-- The NORMALIZE step of `find_emails_logic` (step 1): returns
`(search_name, target_domain)`. The fallback to the first label of the
domain fires when the lowercased input equals the domain or the input
starts with `http` or `//`. -/
def normalizeStep (company_input : Str) : Str × Option Str :=
  if '.' ∈ company_input then
    match sanitize_url company_input with
    | some td =>
      if toLowerS company_input ≠ td ∧ startsWithS (strL "http") company_input = false ∧
          startsWithS (strL "//") company_input = false then
        (company_input, some td)
      else
        ((if '.' ∈ td then (pySplit '.' td).headD [] else td), some td)
    | none => (company_input, none)
  else (company_input, none)

/-- Outcome of fetching one search result page: a parsed `results`
array of `(title, content)` hits, or one of the caught per-page failure
classes of `SearXNGClient.search`. -/
inductive PageOutcome where
  | ok (results : List (Option Str × Option Str))
  | timedOut
  | requestError
  | jsonError
  | otherError

/-- Text contributed by one hit: `f"{title}\n{content}\n\n"`, with
missing fields as empty strings. -/
def hitText (r : Option Str × Option Str) : Str :=
  (r.1.getD []) ++ '\n' :: ((r.2.getD []) ++ strL "\n\n")

/-- Text contributed by one non-empty results page. -/
def pageText (results : List (Option Str × Option Str)) : Str := (results.map hitText).flatten

/-- The paging loop of `SearXNGClient.search` over the listed page
numbers: an empty page or any caught failure stops paging and returns
the text aggregated so far. -/
def searchPages (fetch : Nat → PageOutcome) : List Nat → Str → Str
  | [], acc => acc
  | p :: ps, acc =>
    match fetch p with
    | PageOutcome.ok results =>
      if results.isEmpty then acc else searchPages fetch ps (acc ++ pageText results)
    | _ => acc

/-- Models `SearXNGClient.search(query, max_pages)`: pages 1 to
`max_pages` are attempted in order. -/
def searxngSearch (fetch : Nat → PageOutcome) (max_pages : Nat) : Str :=
  searchPages fetch (List.range' 1 max_pages) []

/-- Text contributed by one page outcome: failures contribute nothing. -/
def pageTextOf : PageOutcome → Str
  | PageOutcome.ok rs => pageText rs
  | _ => []

/-- The three per-page failure classes named by the spec: timeout,
transport-level error (`RequestException`), unparsable response
(`JSONDecodeError`). -/
def isPageFailure (o : PageOutcome) : Prop :=
  o = PageOutcome.timedOut ∨ o = PageOutcome.requestError ∨ o = PageOutcome.jsonError

/-- Models `search_web_standalone_text`: an empty base URL or a base URL
without an `http://`/`https://` scheme (which makes the client
constructor raise `ValueError`, caught locally) degrades to the empty
string. -/
def search_web_standalone_text (query : Str) (searx_base_url : Str)
    (netFetch : Str → Nat → PageOutcome) (pages : Nat) : Str :=
  if searx_base_url.isEmpty then []
  else if !(startsWithS (strL "http://") searx_base_url || startsWithS (strL "https://") searx_base_url) then []
  else searxngSearch (netFetch query) pages

/-- Configuration constant `PAGES_PER_QUERY`. -/
def PAGES_PER_QUERY : Nat := 2

/-- The result record assembled by `find_emails_logic` (the
`query_details` sub-dictionary is flattened into its two fields). -/
structure DiscoveryResult where
  search_name : Str
  target_domain : Option Str
  found_emails : List Str
  error : Option Str

/-- The instantiated query list of `find_emails_logic`: each template is
formatted (with falsy values as empty strings) and cleaned up. -/
def buildQueries (company_input : Str) (ceo_name : Option Str) : List Str :=
  let sn_td := normalizeStep company_input
  (queryTemplates ceo_name sn_td.2).map
    (fun t => cleanupQuery (formatQuery (ceo_name.getD []) (sn_td.2.getD []) sn_td.1 t))

/-- Models `find_emails_logic`: normalize, plan, search and extract per
query (accumulating a candidate set), filter, and assemble the result.
The `error` field is initialized to `None` and never assigned. -/
def find_emails_logic (company_input : Str) (ceo_name : Option Str) (searx_url : Str)
    (netFetch : Str → Nat → PageOutcome) : DiscoveryResult :=
  let sn_td := normalizeStep company_input
  let queries := buildQueries company_input ceo_name
  let all_found := queries.foldl
    (fun acc q =>
      let text := search_web_standalone_text q searx_url netFetch PAGES_PER_QUERY
      if !text.isEmpty then
        let es := extract_emails_from_text text
        if !es.isEmpty then acc ++ es.filter (fun e => !acc.contains e) else acc
      else acc)
    []
  let finalEmails :=
    if all_found.isEmpty then [] else filter_blacklisted_emails all_found sn_td.2
  { search_name := sn_td.1, target_domain := sn_td.2, found_emails := finalEmails, error := none }

/-! ### Character and lowercasing lemmas -/

theorem toNat_ofNat_valid (n : Nat) (h1 : n < 55296) : (Char.ofNat n).toNat = n := by
  have hv : n.isValidChar := Or.inl h1
  simp only [Char.ofNat, hv, dif_pos, Char.ofNatAux, Char.toNat]
  rfl

theorem char_eq_iff_toNat {a b : Char} : a = b ↔ a.toNat = b.toNat := by
  constructor
  · intro h; rw [h]
  · intro h
    exact Char.ext (UInt32.ext h)

theorem lowerChar_toNat (c : Char) :
    (lowerChar c).toNat = if 65 ≤ c.toNat ∧ c.toNat ≤ 90 then c.toNat + 32 else c.toNat := by
  unfold lowerChar
  split
  · next h => exact toNat_ofNat_valid _ (by omega)
  · rfl

theorem lowerChar_idem (c : Char) : lowerChar (lowerChar c) = lowerChar c := by
  rw [char_eq_iff_toNat, lowerChar_toNat, lowerChar_toNat]
  split_ifs <;> omega

theorem lowerChar_eq_special {x : Char} (c : Char) (hup : ¬ (65 ≤ x.toNat ∧ x.toNat ≤ 90))
    (hlow : ¬ (97 ≤ x.toNat ∧ x.toNat ≤ 122)) : lowerChar c = x ↔ c = x := by
  rw [char_eq_iff_toNat, char_eq_iff_toNat (a := c), lowerChar_toNat]
  split <;> omega

theorem toLowerS_idem (s : Str) : toLowerS (toLowerS s) = toLowerS s := by
  have h : lowerChar ∘ lowerChar = lowerChar := funext lowerChar_idem
  simp only [toLowerS, List.map_map, h]

theorem mem_toLowerS_special {x : Char} {s : Str} (hup : ¬ (65 ≤ x.toNat ∧ x.toNat ≤ 90))
    (hlow : ¬ (97 ≤ x.toNat ∧ x.toNat ≤ 122)) : x ∈ toLowerS s ↔ x ∈ s := by
  unfold toLowerS
  rw [List.mem_map]
  constructor
  · rintro ⟨c, hc, hcx⟩
    rwa [(lowerChar_eq_special c hup hlow).mp hcx] at hc
  · intro hx
    exact ⟨x, hx, (lowerChar_eq_special x hup hlow).mpr rfl⟩

/-! ### Lexicographic order lemmas and sorting instances -/

theorem strLe_total_bool (a : Str) : ∀ b : Str, strLe a b = true ∨ strLe b a = true := by
  induction a with
  | nil => intro b; exact Or.inl rfl
  | cons x xs ih =>
    intro b
    cases b with
    | nil => exact Or.inr rfl
    | cons y ys =>
      rcases lt_trichotomy x y with h | h | h
      · left; simp [strLe, h]
      · subst h
        rcases ih ys with h2 | h2
        · left; simp [strLe, lt_irrefl, h2]
        · right; simp [strLe, lt_irrefl, h2]
      · right; simp [strLe, h]

theorem strLe_trans_bool (a : Str) :
    ∀ b c : Str, strLe a b = true → strLe b c = true → strLe a c = true := by
  induction a with
  | nil => intro b c _ _; rfl
  | cons x xs ih =>
    intro b c hab hbc
    cases b with
    | nil => simp [strLe] at hab
    | cons y ys =>
      cases c with
      | nil => simp [strLe] at hbc
      | cons z zs =>
        simp only [strLe] at hab hbc ⊢
        by_cases h1 : x < y
        · by_cases h2 : y < z
          · simp [lt_trans h1 h2]
          · by_cases h3 : z < y
            · simp [h2, h3] at hbc
            · have : y = z := le_antisymm (le_of_not_lt h3) (le_of_not_lt h2)
              subst this
              simp [h1]
        · by_cases h4 : y < x
          · simp [h1, h4] at hab
          · have hxy : x = y := le_antisymm (le_of_not_lt h4) (le_of_not_lt h1)
            subst hxy
            rw [if_neg (lt_irrefl x), if_neg (lt_irrefl x)] at hab
            by_cases h2 : x < z
            · simp [h2]
            · by_cases h3 : z < x
              · simp [h2, h3] at hbc
              · have : x = z := le_antisymm (le_of_not_lt h3) (le_of_not_lt h2)
                subst this
                rw [if_neg (lt_irrefl x), if_neg (lt_irrefl x)] at hbc ⊢
                exact ih ys zs hab hbc

instance : IsTotal Str strLeP := ⟨fun a b => strLe_total_bool a b⟩

instance : IsTrans Str strLeP := ⟨fun a b c => strLe_trans_bool a b c⟩

/-! ### Candidate Filter lemmas (claims C3, C6, C9) -/

theorem mem_filter_blacklisted {e : Str} {S : List Str} {td : Option Str} :
    e ∈ filter_blacklisted_emails S td ↔ e ∈ S ∧ keepEmail (normTD td) e = true := by
  unfold filter_blacklisted_emails
  rw [(List.perm_insertionSort strLeP _).mem_iff, List.mem_dedup, List.mem_filter]

theorem splitFirstAt_of_mem {e : Str} (h : '@' ∈ e) :
    splitFirstAt e = some (e.takeWhile (fun c => c ≠ '@'), domainPart e) := by
  unfold splitFirstAt
  rw [if_pos h]

theorem keepEmail_true_iff (ntd : Option Str) (e : Str) :
    keepEmail ntd e = true ↔
      '@' ∈ e ∧ domainPart e ∉ BLACKLISTED_DOMAINS ∧ (∀ t, ntd = some t → domainPart e = t) := by
  unfold keepEmail
  by_cases h : '@' ∈ e
  · rw [splitFirstAt_of_mem h]
    by_cases hb : domainPart e ∈ BLACKLISTED_DOMAINS
    · simp [hb, h]
    · cases ntd with
      | none => simp [hb, h]
      | some t => simp [hb, h]
  · unfold splitFirstAt
    rw [if_neg h]
    simp [h]

theorem nodup_filter_blacklisted (S : List Str) (td : Option Str) :
    (filter_blacklisted_emails S td).Nodup := by
  unfold filter_blacklisted_emails
  exact (List.perm_insertionSort strLeP _).symm.nodup (List.nodup_dedup _)

theorem sorted_filter_blacklisted (S : List Str) (td : Option Str) :
    List.Sorted strLeP (filter_blacklisted_emails S td) := by
  unfold filter_blacklisted_emails
  exact List.sorted_insertionSort strLeP _

/-! ### Domain Normalizer lemmas (claims C5, C2) -/

theorem pySplit_ne_nil (sep : Char) (s : Str) : pySplit sep s ≠ [] := by
  cases s with
  | nil => simp [pySplit]
  | cons c cs =>
    simp only [pySplit]
    split
    · simp
    · split <;> simp

theorem pySplit_toLowerS (s : Str) : pySplit '.' (toLowerS s) = (pySplit '.' s).map toLowerS := by
  induction s with
  | nil => rfl
  | cons c cs ih =>
    by_cases hc : c = '.'
    · subst hc
      have hl : lowerChar '.' = '.' := by decide
      simp only [toLowerS, List.map_cons, hl, pySplit, if_pos rfl]
      rw [show List.map lowerChar cs = toLowerS cs from rfl, ih]
      rfl
    · have hlc : lowerChar c ≠ '.' := fun he => hc ((lowerChar_eq_special c (by decide) (by decide)).mp he)
      simp only [toLowerS, List.map_cons, pySplit, if_neg hlc, if_neg hc]
      rw [show List.map lowerChar cs = toLowerS cs from rfl, ih]
      obtain ⟨t, ts, hts⟩ := List.exists_cons_of_ne_nil (pySplit_ne_nil '.' cs)
      rw [hts]
      rfl

theorem getLastD_map_fun {α β : Type _} (f : α → β) (l : List α) (d : α) :
    (l.map f).getLastD (f d) = f (l.getLastD d) := by
  induction l generalizing d with
  | nil => rfl
  | cons x xs ih => simp only [List.map_cons, List.getLastD_cons]; exact ih x

theorem stripPort_subset (s : Str) : ∀ c ∈ stripPort s, c ∈ s := by
  intro c hc
  simp only [stripPort] at hc
  split at hc
  · next rest2 heq =>
    split at hc
    · exact hc
    · rw [List.mem_reverse] at hc
      have h1 : c ∈ ':' :: rest2 := List.mem_cons_of_mem _ hc
      rw [← heq] at h1
      have h2 : c ∈ s.reverse := List.drop_subset _ _ h1
      rwa [List.mem_reverse] at h2
  · exact hc

theorem netlocOf_no_slash (u : Str) : '/' ∉ netlocOf u := by
  intro h
  simp only [netlocOf] at h
  have := List.mem_takeWhile_imp h
  simp at this

theorem sanitizeCore_aux {dm d0 d : Str} (hsub : ∀ c ∈ dm, c ∈ d0)
    (h : (if ¬ ('.' ∈ dm) ∨ ((pySplit '.' dm).getLastD []).length < 2 then none
          else some (toLowerS dm)) = some d) :
    toLowerS d = d ∧ '.' ∈ d ∧ 2 ≤ ((pySplit '.' d).getLastD []).length ∧
      ∀ c ∈ d, ∃ c0 ∈ d0, lowerChar c0 = c := by
  split at h
  · exact absurd h (by simp)
  · next hcond =>
    push_neg at hcond
    obtain ⟨hdot, hlen⟩ := hcond
    rw [Option.some_inj] at h
    subst h
    refine ⟨toLowerS_idem _, (mem_toLowerS_special (by decide) (by decide)).mpr hdot, ?_, ?_⟩
    · rw [pySplit_toLowerS, show ([] : Str) = toLowerS [] from rfl, getLastD_map_fun]
      simp only [toLowerS, List.length_map]
      omega
    · intro c hc
      obtain ⟨c0, hc0, hc0e⟩ := List.mem_map.mp hc
      exact ⟨c0, hsub c0 hc0, hc0e⟩

theorem sanitizeCore_spec {d0 d : Str} (h : sanitizeCore d0 = some d) :
    toLowerS d = d ∧ '.' ∈ d ∧ 2 ≤ ((pySplit '.' d).getLastD []).length ∧
      ∀ c ∈ d, ∃ c0 ∈ d0, lowerChar c0 = c := by
  simp only [sanitizeCore] at h
  split at h
  · exact absurd h (by simp)
  · by_cases hw : startsWithS (strL "www.") (toLowerS d0) = true
    · rw [if_pos hw] at h
      exact sanitizeCore_aux (fun c hc => List.drop_subset _ _ (stripPort_subset _ c hc)) h
    · rw [if_neg hw] at h
      exact sanitizeCore_aux (fun c hc => stripPort_subset _ c hc) h

theorem sanitize_url_spec {url d : Str} (h : sanitize_url url = some d) :
    toLowerS d = d ∧ '.' ∈ d ∧ 2 ≤ ((pySplit '.' d).getLastD []).length ∧ '/' ∉ d := by
  simp only [sanitize_url] at h
  split at h
  · exact absurd h (by simp)
  · obtain ⟨h1, h2, h3, h4⟩ := sanitizeCore_spec h
    refine ⟨h1, h2, h3, ?_⟩
    intro hsl
    obtain ⟨c0, hc0, hc0e⟩ := h4 '/' hsl
    rw [(lowerChar_eq_special c0 (by decide) (by decide)).mp hc0e] at hc0
    exact netlocOf_no_slash _ hc0

theorem hasSub_subset {pat s : Str} (h : hasSub pat s = true) : ∀ c ∈ pat, c ∈ s := by
  unfold hasSub at h
  generalize hf : s.length = fuel at h
  clear hf
  induction fuel generalizing s with
  | zero =>
    simp only [hasSubAux] at h
    exact fun c hc => (List.isPrefixOf_iff_prefix.mp h).subset hc
  | succ f ih =>
    simp only [hasSubAux] at h
    rcases Bool.or_eq_true_iff.mp h with h1 | h1
    · exact fun c hc => (List.isPrefixOf_iff_prefix.mp h1).subset hc
    · cases s with
      | nil => simp at h1
      | cons x xs => exact fun c hc => List.mem_cons_of_mem _ (ih h1 c hc)

theorem normalizeStep_snd_some {ci td : Str} (h : (normalizeStep ci).2 = some td) :
    sanitize_url ci = some td ∧ '.' ∈ ci := by
  unfold normalizeStep at h
  by_cases hdot : '.' ∈ ci
  · rw [if_pos hdot] at h
    refine ⟨?_, hdot⟩
    cases hs : sanitize_url ci with
    | none => rw [hs] at h; simp at h
    | some td2 =>
      rw [hs] at h
      split at h
      · next t heq =>
        rw [Option.some_inj] at heq
        subst heq
        split at h
        · exact h
        · exact h
      · next heq => exact absurd heq (by simp)
  · rw [if_neg hdot] at h
    simp at h

/-! ### Search Client lemmas (claim C7) -/

theorem searchPages_ok_segment (fetch : Nat → PageOutcome) (ps : List Nat) :
    ∀ (qs : List Nat) (acc : Str),
      (∀ p ∈ ps, ∃ rs, fetch p = PageOutcome.ok rs ∧ rs.isEmpty = false) →
      searchPages fetch (ps ++ qs) acc =
        searchPages fetch qs (acc ++ (ps.map (fun p => pageTextOf (fetch p))).flatten) := by
  induction ps with
  | nil => intro qs acc _; simp
  | cons p ps ih =>
    intro qs acc h
    obtain ⟨rs, hrs, hne⟩ := h p (List.mem_cons_self p ps)
    have htail : ∀ q ∈ ps, ∃ rs, fetch q = PageOutcome.ok rs ∧ rs.isEmpty = false :=
      fun q hq => h q (List.mem_cons_of_mem _ hq)
    rw [List.cons_append]
    simp only [searchPages, hrs, hne, Bool.false_eq_true, if_false]
    rw [ih qs (acc ++ pageText rs) htail]
    simp only [List.map_cons, List.flatten_cons, hrs, pageTextOf, List.append_assoc]

theorem searchPages_failure (fetch : Nat → PageOutcome) (k : Nat) (rest : List Nat) (acc : Str)
    (hfail : isPageFailure (fetch k)) : searchPages fetch (k :: rest) acc = acc := by
  rcases hfail with h | h | h <;> simp only [searchPages, h]

/-! ### Candidate Extractor lemmas (claim C10) -/

theorem count_at_takeWhile_local (s : Str) : List.count '@' (s.takeWhile isLocalChar) = 0 := by
  rw [List.count_eq_zero]
  intro hmem
  have := List.mem_takeWhile_imp hmem
  simp [isLocalChar] at this

theorem count_at_take_dom (l : Str) (n : Nat) :
    List.count '@' (List.take n (List.takeWhile isDomChar l)) = 0 := by
  rw [List.count_eq_zero]
  intro hmem
  have hd := List.mem_takeWhile_imp (List.take_subset _ _ hmem)
  simp [isDomChar] at hd

theorem matchFrom_count {s m rest : Str} (h : matchFrom s = some (m, rest)) :
    List.count '@' m = 1 := by
  simp only [matchFrom] at h
  split at h
  · exact absurd h (by simp)
  · split at h
    · split at h
      · rw [Option.some_inj, Prod.mk.injEq] at h
        obtain ⟨hm, hrest⟩ := h
        subst hm
        rw [List.count_append, List.count_cons_self, count_at_takeWhile_local, count_at_take_dom]
      · exact absurd h (by simp)
    · exact absurd h (by simp)

theorem scanAux_count : ∀ (fuel : Nat) (s m : Str), m ∈ scanAux fuel s → List.count '@' m = 1 := by
  intro fuel
  induction fuel with
  | zero => intro s m h; simp [scanAux] at h
  | succ f ih =>
    intro s m h
    cases s with
    | nil => simp [scanAux] at h
    | cons c cs =>
      rw [scanAux] at h
      cases hm : matchFrom (c :: cs) with
      | some pr =>
        rw [hm] at h
        obtain ⟨m0, rest⟩ := pr
        rcases List.mem_cons.mp h with h1 | h1
        · subst h1; exact matchFrom_count hm
        · exact ih rest m h1
      | none =>
        rw [hm] at h
        exact ih cs m h

theorem count_at_toLowerS (e : Str) : List.count '@' (toLowerS e) = List.count '@' e := by
  induction e with
  | nil => rfl
  | cons c cs ih =>
    simp only [toLowerS, List.map_cons] at *
    rw [List.count_cons, List.count_cons, ih]
    have h2 : (lowerChar c == '@') = (c == '@') := by
      by_cases hc : c = '@'
      · subst hc; rfl
      · have hlc : lowerChar c ≠ '@' := fun he => hc ((lowerChar_eq_special c (by decide) (by decide)).mp he)
        simp [hc, hlc]
    rw [h2]

theorem extract_count_one {text e : Str} (h : e ∈ extract_emails_from_text text) :
    List.count '@' e = 1 := by
  unfold extract_emails_from_text at h
  split at h
  · simp at h
  · rw [List.mem_dedup, List.mem_map] at h
    obtain ⟨m, hm, hme⟩ := h
    subst hme
    rw [count_at_toLowerS]
    exact scanAux_count _ _ _ hm

/-! ### Query Planner lemmas (claims C4, C8) -/

theorem truthy_some_of_ne {s : Str} (h : s ≠ []) : truthy (some s) = true := by
  cases s with
  | nil => exact absurd rfl h
  | cons a l => rfl

theorem isEmpty_false_of_ne {s : Str} (h : s ≠ []) : s.isEmpty = false := by
  cases s with
  | nil => exact absurd rfl h
  | cons a l => rfl

theorem toLowerS_eq_self_iff (s : Str) : toLowerS s = s ↔ ∀ c ∈ s, lowerChar c = c := by
  induction s with
  | nil => simp [toLowerS]
  | cons c cs ih =>
    simp only [toLowerS, List.map_cons, List.cons.injEq]
    constructor
    · rintro ⟨h1, h2⟩ x hx
      rcases List.mem_cons.mp hx with h | h
      · rw [h]; exact h1
      · exact (ih.mp h2) x h
    · intro h
      exact ⟨h c (List.mem_cons_self _ _), ih.mpr (fun x hx => h x (List.mem_cons_of_mem _ hx))⟩

theorem lowerChar_fix_of_mem_toLowerS {c : Char} {s : Str} (h : c ∈ toLowerS s) :
    lowerChar c = c := by
  obtain ⟨c0, _, hc0⟩ := List.mem_map.mp h
  rw [← hc0]
  exact lowerChar_idem c0

theorem splitWSAux_chars : ∀ (s cur t : Str), t ∈ splitWSAux s cur → ∀ c ∈ t, c ∈ s ∨ c ∈ cur := by
  intro s
  induction s with
  | nil =>
    intro cur t ht c hc
    simp only [splitWSAux] at ht
    split at ht
    · simp at ht
    · rw [List.mem_singleton] at ht
      subst ht
      right
      rwa [List.mem_reverse] at hc
  | cons a as ih =>
    intro cur t ht c hc
    simp only [splitWSAux] at ht
    split at ht
    · split at ht
      · rcases ih [] t ht c hc with h | h
        · exact Or.inl (List.mem_cons_of_mem _ h)
        · simp at h
      · rcases List.mem_cons.mp ht with h1 | h1
        · subst h1
          right
          rwa [List.mem_reverse] at hc
        · rcases ih [] t h1 c hc with h | h
          · exact Or.inl (List.mem_cons_of_mem _ h)
          · simp at h
    · rcases ih (a :: cur) t ht c hc with h | h
      · exact Or.inl (List.mem_cons_of_mem _ h)
      · rcases List.mem_cons.mp h with h2 | h2
        · exact Or.inl (h2 ▸ List.mem_cons_self _ _)
        · exact Or.inr h2

theorem splitWS_token_lowerFixed {s t : Str} (h : t ∈ splitWS (toLowerS s)) : toLowerS t = t := by
  rw [toLowerS_eq_self_iff]
  intro c hc
  rcases splitWSAux_chars (toLowerS s) [] t h c hc with h1 | h1
  · exact lowerChar_fix_of_mem_toLowerS h1
  · simp at h1

/-! ### Orchestrator glue lemmas (claims C1, C6) -/

theorem find_emails_logic_target (company : Str) (ceo : Option Str) (url : Str)
    (fetch : Str → Nat → PageOutcome) :
    (find_emails_logic company ceo url fetch).target_domain = (normalizeStep company).2 := rfl

theorem find_emails_logic_found (company : Str) (ceo : Option Str) (url : Str)
    (fetch : Str → Nat → PageOutcome) :
    ∃ S : List Str,
      (find_emails_logic company ceo url fetch).found_emails =
        if S.isEmpty then [] else filter_blacklisted_emails S (normalizeStep company).2 :=
  ⟨_, rfl⟩

theorem filter_mem_props {S : List Str} {td : Option Str} {e : Str}
    (he : e ∈ filter_blacklisted_emails S td) :
    '@' ∈ e ∧ domainPart e ∉ BLACKLISTED_DOMAINS ∧ ∀ t, normTD td = some t → domainPart e = t :=
  (keepEmail_true_iff _ _).mp (mem_filter_blacklisted.mp he).2

/-! ### Claim theorems -/

/-- Claim C1, amended: the `error` field of the returned
`DiscoveryResult` is never populated. For every input — including a
missing or invalid search endpoint — `find_emails_logic` returns
`error = None`: configuration failures are absorbed by
`search_web_standalone_text` (which returns the empty string) instead of
being surfaced in `error`. -/
theorem c1_error_always_none (company : Str) (ceo : Option Str) (url : Str)
    (fetch : Str → Nat → PageOutcome) :
    (find_emails_logic company ceo url fetch).error = none := rfl

/-- Claim C1 counterexample: with a missing (empty) search endpoint the
returned `error` field is still `None`, contradicting the claim that a
ConfigurationError makes the run fatal with a non-null `error`. -/
theorem c1_counterexample :
    (find_emails_logic (strL "acme.com") none (strL "")
      (fun _ _ => PageOutcome.otherError)).error = none := rfl

/-- Claim C2, amended: when normalization succeeds, `search_name` is the
original input exactly when the LOWERCASED input differs from the domain
and the input does not start with `http` or `//`; otherwise (lowercased
input equal to the domain, or an input starting with `http` or `//`)
`search_name` falls back to the first label of the domain. -/
theorem c2_search_name_rule (ci td : Str) (hdot : '.' ∈ ci)
    (hs : sanitize_url ci = some td) :
    ((toLowerS ci ≠ td ∧ startsWithS (strL "http") ci = false ∧
        startsWithS (strL "//") ci = false) → normalizeStep ci = (ci, some td)) ∧
    ((toLowerS ci = td ∨ startsWithS (strL "http") ci = true ∨
        startsWithS (strL "//") ci = true) →
      normalizeStep ci =
        ((if '.' ∈ td then (pySplit '.' td).headD [] else td), some td)) := by
  have hred : normalizeStep ci =
      (if toLowerS ci ≠ td ∧ startsWithS (strL "http") ci = false ∧
          startsWithS (strL "//") ci = false then (ci, some td)
       else ((if '.' ∈ td then (pySplit '.' td).headD [] else td), some td)) := by
    unfold normalizeStep
    rw [if_pos hdot, hs]
  constructor
  · intro hcond
    rw [hred, if_pos hcond]
  · intro hcond
    have hn : ¬(toLowerS ci ≠ td ∧ startsWithS (strL "http") ci = false ∧
        startsWithS (strL "//") ci = false) := by
      rintro ⟨hn1, hn2, hn3⟩
      rcases hcond with h | h | h
      · exact hn1 h
      · rw [h] at hn2; exact absurd hn2 (by decide)
      · rw [h] at hn3; exact absurd hn3 (by decide)
    rw [hred, if_neg hn]

/-- Claim C2 witness: the rule applied at `Acme.com`, whose lowercasing
equals its domain, so `search_name` falls back to the first label. -/
theorem c2_search_name_rule_witness :
    normalizeStep (strL "Acme.com") = (strL "acme", some (strL "acme.com")) := by
  have h := (c2_search_name_rule (strL "Acme.com") (strL "acme.com") (by decide) (by decide)).2
    (Or.inl (by decide))
  rw [h]
  decide

/-- Claim C2 counterexample: for the input `https://example.com`,
normalization succeeds with domain `example.com`; the input is not
string-equal to the bare domain, so the claim demands
`search_name = original input` — but the code, seeing the `http` prefix,
sets `search_name` to the first label `example`. -/
theorem c2_counterexample :
    normalizeStep (strL "https://example.com") =
      (strL "example", some (strL "example.com")) ∧
    strL "https://example.com" ≠ strL "example.com" ∧
    strL "example" ≠ strL "https://example.com" := by decide

/-- Claim C3, amended: a candidate with ZERO `@` characters is treated
as malformed (the `ValueError` branch) and never appears in the filter's
output; the filter itself never raises (it is total). A candidate with
more than one `@` is NOT skipped: it is split at the first `@` and
processed like any other candidate (see the counterexample). -/
theorem c3_no_at_skipped (S : List Str) (td : Option Str) (e : Str)
    (h : List.count '@' e = 0) : e ∉ filter_blacklisted_emails S td := by
  intro hmem
  exact (List.count_eq_zero.mp h) (filter_mem_props hmem).1

/-- Claim C3 witness: a concrete zero-`@` candidate is dropped. -/
theorem c3_no_at_skipped_witness :
    List.count '@' (strL "malformed") = 0 ∧
      strL "malformed" ∉ filter_blacklisted_emails [strL "malformed"] none :=
  ⟨by decide, c3_no_at_skipped [strL "malformed"] none (strL "malformed") (by decide)⟩

/-- Claim C3 counterexample: `a@b@c.com` has two `@` characters, yet the
filter keeps it — `split('@', 1)` yields domain part `b@c.com`, which is
neither blacklisted nor target-checked here — contradicting the claim
that a candidate with more than one `@` never appears in the output. -/
theorem c3_counterexample :
    List.count '@' (strL "a@b@c.com") = 2 ∧
      strL "a@b@c.com" ∈ filter_blacklisted_emails [strL "a@b@c.com"] none := by decide

/-- Claim C5, amended: every successfully sanitized domain is lowercase,
contains no scheme (`://` cannot occur since `/` cannot occur), and
contains at least one `.` with a final label of length at least 2. The
claim's remaining conjuncts — no `www.` prefix and no `:port` suffix —
do not hold in general, because only one leading `www.` and one trailing
`:digits` group are stripped (see the counterexample). -/
theorem c5_domain_shape (url d : Str) (h : sanitize_url url = some d) :
    toLowerS d = d ∧ '.' ∈ d ∧ 2 ≤ ((pySplit '.' d).getLastD []).length ∧
      hasSub (strL "://") d = false := by
  obtain ⟨h1, h2, h3, h4⟩ := sanitize_url_spec h
  refine ⟨h1, h2, h3, ?_⟩
  by_contra hc
  rw [Bool.not_eq_false] at hc
  exact h4 (hasSub_subset hc '/' (by decide))

/-- Claim C5 witness: the spec's round-trip example
`https://www.Example.COM:8080/path`, which sanitizes to `example.com`. -/
theorem c5_domain_shape_witness :
    toLowerS (strL "example.com") = strL "example.com" ∧ '.' ∈ strL "example.com" ∧
      2 ≤ ((pySplit '.' (strL "example.com")).getLastD []).length ∧
      hasSub (strL "://") (strL "example.com") = false :=
  c5_domain_shape (strL "https://www.Example.COM:8080/path") (strL "example.com") (by decide)

/-- Claim C5 counterexample: `www.www.example.com:1:2` sanitizes
successfully to `www.example.com:1`, which still starts with `www.` and
still ends in a `:digits` suffix (`stripPort` would strip more),
refuting the claim's `www.`-prefix and port conjuncts. -/
theorem c5_counterexample :
    sanitize_url (strL "www.www.example.com:1:2") = some (strL "www.example.com:1") ∧
      startsWithS (strL "www.") (strL "www.example.com:1") = true ∧
      stripPort (strL "www.example.com:1") ≠ strL "www.example.com:1" := by decide

/-- Claim C9: the Candidate Filter is idempotent — applying it to its
own output (with the same target domain) returns that output unchanged:
every survivor passes the checks again, deduplication is a no-op on a
duplicate-free list, and sorting is a no-op on a sorted list. -/
theorem c9_filter_idempotent (S : List Str) (td : Option Str) :
    filter_blacklisted_emails (filter_blacklisted_emails S td) td =
      filter_blacklisted_emails S td := by
  have hkeep : ∀ e ∈ filter_blacklisted_emails S td, keepEmail (normTD td) e = true :=
    fun e he => (mem_filter_blacklisted.mp he).2
  have hnodup := nodup_filter_blacklisted S td
  have hsorted := sorted_filter_blacklisted S td
  set out := filter_blacklisted_emails S td with hout
  show List.insertionSort strLeP ((out.filter (keepEmail (normTD td))).dedup) = out
  rw [List.filter_eq_self.mpr hkeep, List.dedup_eq_self.mpr hnodup]
  exact hsorted.insertionSort_eq

/-- Claim C10: every string produced by the Candidate Extractor contains
exactly one `@` character (the email regex permits `@` in neither the
local part nor the domain part), so on extractor output the filter's
zero-`@` malformed branch (`splitFirstAt _ = none`) is unreachable. -/
theorem c10_extracted_one_at (text e : Str) (h : e ∈ extract_emails_from_text text) :
    List.count '@' e = 1 ∧ splitFirstAt e ≠ none := by
  have h1 := extract_count_one h
  refine ⟨h1, ?_⟩
  have hm : '@' ∈ e := List.count_pos_iff.mp (by omega)
  unfold splitFirstAt
  rw [if_pos hm]
  simp

/-- Claim C10 witness: the extractor output for `contact a@b.com`. -/
theorem c10_extracted_one_at_witness :
    List.count '@' (strL "a@b.com") = 1 ∧ splitFirstAt (strL "a@b.com") ≠ none :=
  c10_extracted_one_at (strL "contact a@b.com") (strL "a@b.com") (by decide)

/-- Claim C4: the base strategy is selected by which of contact name and
domain are known (truthy). Both known: exactly five templates — the
first three combine the quoted `{name}` with the `{domain}`, and the
last two are the broader domain-only fallbacks `"{domain}" email` and
`contact {domain}` (no `{name}`). Name known, domain unknown: exactly
four templates — the first three combine the quoted `{name}` with the
quoted `{search_name}`, and the last is the company-only fallback
`"{search_name}" email` (no `{name}`). -/
theorem c4_base_strategy (n d : Str) (hn : n ≠ []) (hd : d ≠ []) :
    (baseTemplates (some n) (some d) =
      [strL "\"{name}\" \"{domain}\" email",
       strL "\"{name}\" email address {domain}",
       strL "contact \"{name}\" {domain}",
       strL "\"{domain}\" email",
       strL "contact {domain}"] ∧
     (baseTemplates (some n) (some d)).length = 5 ∧
     (∀ t ∈ (baseTemplates (some n) (some d)).take 3,
        hasSub (strL "\"{name}\"") t = true ∧ hasSub (strL "{domain}") t = true) ∧
     (baseTemplates (some n) (some d)).drop 3 =
       [strL "\"{domain}\" email", strL "contact {domain}"] ∧
     (∀ t ∈ (baseTemplates (some n) (some d)).drop 3, hasSub (strL "{name}") t = false)) ∧
    (baseTemplates (some n) none =
      [strL "\"{name}\" \"{search_name}\" email",
       strL "\"{name}\" email address \"{search_name}\" company",
       strL "contact \"{name}\" \"{search_name}\"",
       strL "\"{search_name}\" email"] ∧
     (baseTemplates (some n) none).length = 4 ∧
     (∀ t ∈ (baseTemplates (some n) none).take 3,
        hasSub (strL "\"{name}\"") t = true ∧ hasSub (strL "\"{search_name}\"") t = true) ∧
     (baseTemplates (some n) none).drop 3 = [strL "\"{search_name}\" email"] ∧
     (∀ t ∈ (baseTemplates (some n) none).drop 3, hasSub (strL "{name}") t = false)) := by
  have h1 : truthy (some n) = true := truthy_some_of_ne hn
  have h2 : truthy (some d) = true := truthy_some_of_ne hd
  have e1 : baseTemplates (some n) (some d) =
      [strL "\"{name}\" \"{domain}\" email",
       strL "\"{name}\" email address {domain}",
       strL "contact \"{name}\" {domain}",
       strL "\"{domain}\" email",
       strL "contact {domain}"] := by
    unfold baseTemplates
    rw [h1, h2]
    decide
  have e2 : baseTemplates (some n) none =
      [strL "\"{name}\" \"{search_name}\" email",
       strL "\"{name}\" email address \"{search_name}\" company",
       strL "contact \"{name}\" \"{search_name}\"",
       strL "\"{search_name}\" email"] := by
    unfold baseTemplates
    rw [h1]
    decide
  rw [e1, e2]
  decide

/-- Claim C4 witness: the both-known strategy at a concrete name and
domain. -/
theorem c4_base_strategy_witness :
    baseTemplates (some (strL "x")) (some (strL "y.z")) =
      [strL "\"{name}\" \"{domain}\" email",
       strL "\"{name}\" email address {domain}",
       strL "contact \"{name}\" {domain}",
       strL "\"{domain}\" email",
       strL "contact {domain}"] :=
  ((c4_base_strategy (strL "x") (strL "y.z") (by decide) (by decide)).1).1

/-- Claim C7: if pages 1 to k-1 of a query succeed with non-empty
results and fetching page k (1 ≤ k ≤ maxPages) fails with a timeout, a
transport error, or an unparsable response, the client stops paging and
returns exactly the text aggregated from pages 1 to k-1 (possibly
empty); no such per-page error is ever raised to the caller — the
function totally returns a string. -/
theorem c7_page_failure_isolation (fetch : Nat → PageOutcome) (max_pages k : Nat)
    (h1 : 1 ≤ k) (h2 : k ≤ max_pages)
    (hok : ∀ j, 1 ≤ j → j < k → ∃ rs, fetch j = PageOutcome.ok rs ∧ rs.isEmpty = false)
    (hfail : isPageFailure (fetch k)) :
    searxngSearch fetch max_pages =
      ((List.range' 1 (k - 1)).map (fun j => pageTextOf (fetch j))).flatten := by
  unfold searxngSearch
  have hsplit : List.range' 1 max_pages =
      List.range' 1 (k - 1) ++ List.range' k (max_pages - (k - 1)) := by
    have h := List.range'_append 1 (k - 1) (max_pages - (k - 1)) 1
    rw [show 1 + 1 * (k - 1) = k by omega,
        show max_pages - (k - 1) + (k - 1) = max_pages by omega] at h
    exact h.symm
  rw [hsplit]
  rw [searchPages_ok_segment fetch (List.range' 1 (k - 1)) (List.range' k (max_pages - (k - 1))) []
    (fun p hp => hok p (List.mem_range'_1.mp hp).1 (by have := (List.mem_range'_1.mp hp).2; omega))]
  rw [show max_pages - (k - 1) = (max_pages - k) + 1 by omega, List.range'_succ]
  rw [searchPages_failure fetch k _ _ hfail]
  simp

/-- Claim C7 witness: page 1 returns one hit, page 2 times out; the
aggregate is exactly page 1's text. -/
theorem c7_page_failure_isolation_witness :
    searxngSearch
        (fun p => if p = 1 then PageOutcome.ok [(some (strL "T1"), some (strL "C1"))]
                  else PageOutcome.timedOut) 2 =
      strL "T1\nC1\n\n" := by
  rw [c7_page_failure_isolation
    (fun p => if p = 1 then PageOutcome.ok [(some (strL "T1"), some (strL "C1"))]
              else PageOutcome.timedOut) 2 2 (by omega) (by omega)
    (fun j hj1 hj2 => by
      have hj : j = 1 := by omega
      subst hj
      exact ⟨[(some (strL "T1"), some (strL "C1"))], rfl, rfl⟩)
    (Or.inl rfl)]
  decide

/-- Claim C6, amended: for every candidate set and every target
argument, the filter's output is sorted strictly ascending
(lexicographically), has no duplicates, and contains no email whose
domain part (after the first `@`) is blacklisted; when the target
domain is non-null AND non-empty, every output email's domain part
equals the LOWERCASED target (exact equality as passed fails for a
non-lowercase or empty target, since the code compares against
`target_domain.lower()` and Python truthiness skips the check for `""`
— see the counterexample). Consequently every run's `found_emails`
satisfies all the invariants with exact domain equality, because a
run's `target_domain` is always lowercase and non-empty. -/
theorem c6_output_invariants (S : List Str) (td : Option Str) :
    List.Pairwise (fun a b => strLeP a b ∧ a ≠ b) (filter_blacklisted_emails S td) ∧
    (filter_blacklisted_emails S td).Nodup ∧
    (∀ e ∈ filter_blacklisted_emails S td, domainPart e ∉ BLACKLISTED_DOMAINS) ∧
    (∀ t, td = some t → t ≠ [] →
      ∀ e ∈ filter_blacklisted_emails S td, domainPart e = toLowerS t) ∧
    (∀ (company : Str) (ceo : Option Str) (url : Str) (fetch : Str → Nat → PageOutcome),
      List.Pairwise (fun a b => strLeP a b ∧ a ≠ b)
          (find_emails_logic company ceo url fetch).found_emails ∧
      (∀ e ∈ (find_emails_logic company ceo url fetch).found_emails,
          domainPart e ∉ BLACKLISTED_DOMAINS) ∧
      (∀ t, (find_emails_logic company ceo url fetch).target_domain = some t →
        ∀ e ∈ (find_emails_logic company ceo url fetch).found_emails, domainPart e = t)) := by
  have hnodup := nodup_filter_blacklisted S td
  have hsorted := sorted_filter_blacklisted S td
  refine ⟨List.Pairwise.and hsorted hnodup, hnodup, fun e he => (filter_mem_props he).2.1,
    ?_, ?_⟩
  · intro t ht hne e he
    apply (filter_mem_props he).2.2
    rw [ht]
    simp [normTD, isEmpty_false_of_ne hne]
  · intro company ceo url fetch
    obtain ⟨S0, hS0⟩ := find_emails_logic_found company ceo url fetch
    by_cases hS0e : S0.isEmpty = true
    · rw [hS0, if_pos hS0e]
      exact ⟨List.Pairwise.nil, by simp, by simp⟩
    · rw [hS0, if_neg hS0e]
      have hnodup0 := nodup_filter_blacklisted S0 (normalizeStep company).2
      have hsorted0 := sorted_filter_blacklisted S0 (normalizeStep company).2
      refine ⟨List.Pairwise.and hsorted0 hnodup0,
        fun e he => (filter_mem_props he).2.1, ?_⟩
      intro t ht e he
      rw [find_emails_logic_target] at ht
      obtain ⟨hsan, _⟩ := normalizeStep_snd_some ht
      obtain ⟨hlow, hdotT, _, _⟩ := sanitize_url_spec hsan
      have hne : t ≠ [] := List.ne_nil_of_mem hdotT
      have hdp := (filter_mem_props he).2.2 (toLowerS t) (by
        rw [ht]
        simp [normTD, isEmpty_false_of_ne hne])
      rw [hdp, hlow]

/-- Claim C6 witness: with the (non-lowercase) target `ACME.com`, the
kept email's domain part equals the lowercased target. -/
theorem c6_output_invariants_witness :
    domainPart (strL "a@acme.com") = toLowerS (strL "ACME.com") ∧
      strL "a@acme.com" ∈
        filter_blacklisted_emails [strL "a@acme.com"] (some (strL "ACME.com")) :=
  ⟨(c6_output_invariants [strL "a@acme.com"] (some (strL "ACME.com"))).2.2.2.1
      (strL "ACME.com") rfl (by decide) (strL "a@acme.com") (by decide),
    by decide⟩

/-- Claim C6 counterexample: with the non-null target domain `""`,
Python truthiness disables the target check entirely: `x@b.com` stays in
the output although its domain part `b.com` is not equal to the target
`""`, refuting `every email in the output has a domain part exactly
equal to targetDomain` as universally stated. -/
theorem c6_counterexample :
    filter_blacklisted_emails [strL "x@b.com"] (some []) = [strL "x@b.com"] ∧
      domainPart (strL "x@b.com") ≠ ([] : Str) := by decide

theorem toLowerS_append (a b : Str) : toLowerS (a ++ b) = toLowerS a ++ toLowerS b :=
  List.map_append _ _ _

theorem toLowerS_cons (c : Char) (s : Str) : toLowerS (c :: s) = lowerChar c :: toLowerS s := rfl

theorem toLowerS_take (s : Str) (n : Nat) : toLowerS (s.take n) = (toLowerS s).take n :=
  List.map_take _ _ _

theorem toLowerS_quoteS (s : Str) : toLowerS (quoteS s) = quoteS (toLowerS s) := by
  have hq : lowerChar '"' = '"' := by decide
  simp [quoteS, toLowerS_cons, toLowerS_append, hq, toLowerS]

/-- Claim C8: whenever the contact name is truthy and splits (after
lowercasing) into at least two whitespace tokens and the domain is
truthy, the plan is the base list followed by EXACTLY five appended
permutation-guess queries, in order: the quoted literals
f+last, first.last, firstlast, last.first and first at the domain. They
are built from the lowercased name, so they are all lowercase whenever
the domain is lowercase (as a run's sanitized domain always is).
In particular, for contact name `Jane Doe` and company input `acme.com`
the instantiated plan contains a query containing `jdoe@acme.com`, and
a query containing both `Jane Doe` and `acme.com`. -/
theorem c8_permutation_guesses (cn td : Str) (hcn : cn ≠ []) (htd : td ≠ [])
    (hparts : 2 ≤ (splitWS (toLowerS cn)).length) :
    (queryTemplates (some cn) (some td) =
      baseTemplates (some cn) (some td) ++
        [quoteS (((splitWS (toLowerS cn)).headD []).take 1 ++
            ((splitWS (toLowerS cn)).getLastD [] ++ '@' :: td)),
         quoteS ((splitWS (toLowerS cn)).headD [] ++
            ('.' :: ((splitWS (toLowerS cn)).getLastD [] ++ '@' :: td))),
         quoteS ((splitWS (toLowerS cn)).headD [] ++
            ((splitWS (toLowerS cn)).getLastD [] ++ '@' :: td)),
         quoteS ((splitWS (toLowerS cn)).getLastD [] ++
            ('.' :: ((splitWS (toLowerS cn)).headD [] ++ '@' :: td))),
         quoteS ((splitWS (toLowerS cn)).headD [] ++ '@' :: td)]) ∧
    (toLowerS td = td →
      ∀ q ∈ permGuessQueries (some cn) (some td), toLowerS q = q) ∧
    (∃ q ∈ buildQueries (strL "acme.com") (some (strL "Jane Doe")),
      hasSub (strL "jdoe@acme.com") q = true) ∧
    (∃ q ∈ buildQueries (strL "acme.com") (some (strL "Jane Doe")),
      hasSub (strL "Jane Doe") q = true ∧ hasSub (strL "acme.com") q = true) := by
  have hperm : permGuessQueries (some cn) (some td) =
      [quoteS (((splitWS (toLowerS cn)).headD []).take 1 ++
          ((splitWS (toLowerS cn)).getLastD [] ++ '@' :: td)),
       quoteS ((splitWS (toLowerS cn)).headD [] ++
          ('.' :: ((splitWS (toLowerS cn)).getLastD [] ++ '@' :: td))),
       quoteS ((splitWS (toLowerS cn)).headD [] ++
          ((splitWS (toLowerS cn)).getLastD [] ++ '@' :: td)),
       quoteS ((splitWS (toLowerS cn)).getLastD [] ++
          ('.' :: ((splitWS (toLowerS cn)).headD [] ++ '@' :: td))),
       quoteS ((splitWS (toLowerS cn)).headD [] ++ '@' :: td)] := by
    simp only [permGuessQueries, isEmpty_false_of_ne hcn, isEmpty_false_of_ne htd,
      Bool.false_eq_true, if_false, hparts, if_true]
    simp [List.append_assoc]
  obtain ⟨p1, rest1, hps⟩ := List.exists_cons_of_ne_nil
    (show splitWS (toLowerS cn) ≠ [] by
      intro h0
      rw [h0] at hparts
      simp at hparts)
  have hhead_mem : (splitWS (toLowerS cn)).headD [] ∈ splitWS (toLowerS cn) := by
    rw [hps]
    exact List.mem_cons_self _ _
  have hlast_mem : (splitWS (toLowerS cn)).getLastD [] ∈ splitWS (toLowerS cn) := by
    rw [hps, List.getLastD_cons]
    exact List.getLastD_mem_cons _ _
  have hf := splitWS_token_lowerFixed hhead_mem
  have hl := splitWS_token_lowerFixed hlast_mem
  refine ⟨?_, ?_, by decide, by decide⟩
  · unfold queryTemplates
    rw [hperm]
  · intro hlow q hq
    rw [hperm] at hq
    have hAt : lowerChar '@' = '@' := by decide
    have hDot : lowerChar '.' = '.' := by decide
    simp only [List.mem_cons, List.not_mem_nil, or_false] at hq
    rcases hq with rfl | rfl | rfl | rfl | rfl <;>
      simp only [toLowerS_quoteS, toLowerS_append, toLowerS_cons, toLowerS_take, hf, hl, hlow,
        hAt, hDot]

/-- Claim C8 witness: the concrete `Jane Doe` and `acme.com` scenario
named by the spec. -/
theorem c8_permutation_guesses_witness :
    ∃ q ∈ buildQueries (strL "acme.com") (some (strL "Jane Doe")),
      hasSub (strL "jdoe@acme.com") q = true :=
  (c8_permutation_guesses (strL "Jane Doe") (strL "acme.com") (by decide) (by decide)
    (by decide)).2.2.1
